import Mathlib

/-!
# Verification of the High-Precision Computation tutorial

The repository is a single notebook (`High_Precision_Computation.ipynb`)
demonstrating floating-point machine precision (float64 and extended
precision) and arbitrary-precision arithmetic.  This file embeds:

* the **Precision Profile Reporter** described by the specification (the
  notebook itself only prints `np.finfo` tables, it does not implement the
  reporter, so the reporter is modelled from the spec);
* the two `np.finfo` tables the notebook prints (float64 and longdouble),
  which are recorded outputs of the source;
* the IEEE-754 round-to-nearest, ties-to-even semantics of the notebook's
  `float64` arithmetic, as exact rational arithmetic followed by rounding
  on the 52-fractional-bit grid (the analogue, for floats, of modelling
  machine integers by `Nat` with an explicit `% 2^w`);
* the recorded 40-digit outputs of the external arbitrary-precision
  evaluator (`mpmath`) for `sqrt(4.1)` and `sin(0.1)`.
-/

namespace HighPrecision

/-- The Precision Profile of §3 of the spec: the description of one numeric
representation. -/
structure PrecisionProfile where
  total_bits : ℕ
  mantissa_bits : ℕ
  exponent_bits : ℕ
  exponent_bias : ℤ
  machine_epsilon : ℚ
  decimal_digits : ℕ
  deriving DecidableEq, Repr

/-- The single error kind of §7 of the spec. -/
inductive InvalidFormatError where
  | invalidFormat : InvalidFormatError
  deriving DecidableEq, Repr

/-- Modelled from the spec: `decimal_digits ≈ mantissa_bits * log10(2)`,
realised exactly as the number of complete decimal digits of `2 ^ m`,
i.e. `⌊log10 (2 ^ m)⌋ = ⌊m * log10 2⌋`. -/
def decimalDigits (m : ℕ) : ℕ :=
  Nat.log 10 (2 ^ m)

/-- Modelled from the spec: the Precision Profile Reporter (§4.1) is described
by the spec but not implemented in the notebook.  It is a pure function from
format constants (total bits, mantissa bits, exponent bits, exponent bias) to
a `PrecisionProfile`; a non-physical (`≤ 0`) bit-width parameter fails with
`InvalidFormatError` (§7); `machine_epsilon = 2 ^ (-mantissa_bits)` and
`decimal_digits ≈ mantissa_bits * log10 2` (§4.1). -/
def precisionProfile (total_bits mantissa_bits exponent_bits exponent_bias : ℤ) :
    Except InvalidFormatError PrecisionProfile :=
  if total_bits ≤ 0 ∨ mantissa_bits ≤ 0 ∨ exponent_bits ≤ 0 then
    .error .invalidFormat
  else
    .ok { total_bits := total_bits.toNat
          mantissa_bits := mantissa_bits.toNat
          exponent_bits := exponent_bits.toNat
          exponent_bias := exponent_bias
          machine_epsilon := (2 : ℚ) ^ (-mantissa_bits)
          decimal_digits := decimalDigits mantissa_bits.toNat }

/-- The `np.finfo(np.float64)` table printed by the notebook:
64 bits, `machep = -52` (52 fractional mantissa bits), `nexp = 11`,
`precision = 15`; the exponent bias 1023 is stated in the appendix. -/
def float64Info : PrecisionProfile :=
  { total_bits := 64
    mantissa_bits := 52
    exponent_bits := 11
    exponent_bias := 1023
    machine_epsilon := (2 : ℚ) ^ (-52 : ℤ)
    decimal_digits := 15 }

/-- The `np.finfo(np.longdouble)` table printed by the notebook:
`bits = 128` (x87 extended precision zero-padded to 128 bits; only 80 bits
carry values), `machep = -63` (63 fractional mantissa bits; with the explicit
integer bit the significand has 64 bits), `nexp = 15`, `precision = 18`. -/
def longdoubleInfo : PrecisionProfile :=
  { total_bits := 128
    mantissa_bits := 63
    exponent_bits := 15
    exponent_bias := 16383
    machine_epsilon := (2 : ℚ) ^ (-63 : ℤ)
    decimal_digits := 18 }

/-!
## IEEE-754 rounding, embedded over `ℚ`

The notebook's float64 arithmetic (`myval += 1e-30`, `1 + 2e-15`, the stored
value of the literal `0.3`, …) follows IEEE-754 binary64: the exact rational
result is rounded to the nearest representable value, ties to even.  All
values appearing in the notebook lie well inside the normal range, so the
embedding needs no overflow, underflow or subnormal handling.
-/

/-- Round a rational to the nearest integer, ties to the even integer
(the rounding IEEE-754 applies to the scaled significand). -/
def rne (q : ℚ) : ℤ :=
  let n := ⌊q⌋
  if q - n < 1 / 2 then n
  else if 1 / 2 < q - n then n + 1
  else if n % 2 = 0 then n else n + 1

/-- Round `q` on the floating-point grid with `p` fractional significand bits
in the binade `[2 ^ e, 2 ^ (e + 1))`: scale the significand to an integer
range, round to nearest (ties to even), scale back. -/
def roundAt (p : ℕ) (e : ℤ) (q : ℚ) : ℚ :=
  (rne (q * 2 ^ ((p : ℤ) - e)) : ℚ) * 2 ^ (e - (p : ℤ))

/-- Round a positive rational to the nearest floating-point value with `p`
fractional significand bits (unbounded exponent: the normal range). -/
def flPos (p : ℕ) (q : ℚ) : ℚ :=
  roundAt p (Int.log 2 q) q

/-- Round a rational to the nearest floating-point value with `p` fractional
significand bits, ties to even.  `fl 52` is the value stored by the
notebook's float64 arithmetic. -/
def fl (p : ℕ) (q : ℚ) : ℚ :=
  if q < 0 then -flPos p (-q) else if q = 0 then 0 else flPos p q

/-- float64: 52 fractional significand bits. -/
def fl64 (q : ℚ) : ℚ := fl 52 q

/-- The 40-significant-digit value the notebook records for
`mp.sqrt(mp.mpf(4.1))` at `mp.mp.dps = 40`. -/
def sqrtResult40 : ℚ := 2.024845673131658605596679004662654403763166

/-- The 40-significant-digit value the notebook records for
`mp.sin(mp.mpf(0.1))` at `mp.mp.dps = 40`. -/
def sinResult40 : ℚ := 0.09983341664682815783019686785861666773596606

/-- The `m`-th term of the sine Taylor series at a rational `x`, as the
imaginary part of the `m`-th exponential-series term of `exp (x * I)`. -/
def sinSeriesTerm (x : ℚ) (m : ℕ) : ℚ :=
  if m % 4 = 1 then x ^ m / m.factorial
  else if m % 4 = 3 then -(x ^ m / m.factorial)
  else 0

/-!
## Helper lemmas for evaluating the rounding function
-/

lemma two_nat_cast_q : ((2 : ℕ) : ℚ) = (2 : ℚ) := by norm_num

/-- `Int.log 2` is characterised by the binade bounds. -/
lemma int_log2_eq {e : ℤ} {q : ℚ} (h1 : (2 : ℚ) ^ e ≤ q) (h2 : q < (2 : ℚ) ^ (e + 1)) :
    Int.log 2 q = e := by
  have hq : 0 < q := lt_of_lt_of_le (zpow_pos (by norm_num) e) h1
  have h1' : ((2 : ℕ) : ℚ) ^ e ≤ q := by rwa [two_nat_cast_q]
  have hle : e ≤ Int.log 2 q := by
    have hmono := Int.log_mono_right (b := 2)
      (zpow_pos (by rw [two_nat_cast_q]; norm_num) e) h1'
    rwa [Int.log_zpow (R := ℚ) (by norm_num : 1 < 2)] at hmono
  have hlt : Int.log 2 q < e + 1 := by
    by_contra hcon
    push_neg at hcon
    have h3 : ((2 : ℕ) : ℚ) ^ (e + 1) ≤ ((2 : ℕ) : ℚ) ^ (Int.log 2 q) := by
      apply zpow_le_zpow_right₀ _ hcon
      rw [two_nat_cast_q]; norm_num
    have h4 := Int.zpow_log_le_self (b := 2) (R := ℚ) (by norm_num) hq
    rw [two_nat_cast_q] at h3 h4
    linarith
  omega

/-- Unfold `fl` on a positive argument inside a known binade. -/
lemma fl_eq_roundAt {p : ℕ} {e : ℤ} {q : ℚ} (h1 : (2 : ℚ) ^ e ≤ q)
    (h2 : q < (2 : ℚ) ^ (e + 1)) : fl p q = roundAt p e q := by
  have hq : 0 < q := lt_of_lt_of_le (zpow_pos (by norm_num) e) h1
  rw [fl, if_neg (not_lt.mpr hq.le), if_neg hq.ne', flPos, int_log2_eq h1 h2]

/-- `rne` rounds down when the fractional part is below one half. -/
lemma rne_eq_of_lt_half {q : ℚ} {n : ℤ} (h1 : (n : ℚ) ≤ q) (h2 : q < n + 1 / 2) :
    rne q = n := by
  have hf : ⌊q⌋ = n := Int.floor_eq_iff.mpr ⟨h1, by linarith⟩
  rw [rne, hf, if_pos (by linarith)]

/-- `rne` rounds up when the fractional part is above one half. -/
lemma rne_eq_of_gt_half {q : ℚ} {n : ℤ} (h1 : (n : ℚ) + 1 / 2 < q) (h2 : q < n + 1) :
    rne q = n + 1 := by
  have hf : ⌊q⌋ = n := Int.floor_eq_iff.mpr ⟨by linarith, by linarith⟩
  rw [rne, hf, if_neg (by linarith), if_pos (by linarith)]

/-- `rne` rounds an exact tie to the even neighbour. -/
lemma rne_eq_of_tie_even {q : ℚ} {n : ℤ} (h1 : q = n + 1 / 2) (h2 : n % 2 = 0) :
    rne q = n := by
  have hf : ⌊q⌋ = n := Int.floor_eq_iff.mpr ⟨by linarith, by linarith⟩
  rw [rne, hf, if_neg (by linarith), if_neg (by linarith), if_pos h2]

/-- Any quantity of magnitude at most half an ulp of `1.0` is rounded away:
`fl p (1 + x) = 1` whenever `0 < x ≤ 2 ^ (-p) / 2`. -/
lemma fl_one_add_le_half_ulp {p : ℕ} {x : ℚ} (hp : 0 < p) (hx0 : 0 < x)
    (hx : x ≤ (2 : ℚ) ^ (-(p : ℤ)) / 2) : fl p (1 + x) = 1 := by
  have hps : (1 : ℤ) ≤ (p : ℤ) := by exact_mod_cast hp
  have hple : (2 : ℚ) ^ (-(p : ℤ)) ≤ (2 : ℚ) ^ (-1 : ℤ) :=
    zpow_le_zpow_right₀ (by norm_num) (by omega)
  have hval : (2 : ℚ) ^ (-1 : ℤ) = 1 / 2 := by norm_num
  rw [hval] at hple
  have hx1 : x < 1 := by linarith
  have hbin : fl p (1 + x) = roundAt p 0 (1 + x) := by
    apply fl_eq_roundAt
    · simp only [zpow_zero]; linarith
    · simp only [zero_add, zpow_one]; linarith
  rw [hbin, roundAt]
  have hscale : (1 + x) * 2 ^ ((p : ℤ) - 0) = ((2 ^ p : ℤ) : ℚ) + x * 2 ^ (p : ℤ) := by
    push_cast
    rw [sub_zero, zpow_natCast]
    ring
  have hX0 : 0 < x * (2 : ℚ) ^ (p : ℤ) := mul_pos hx0 (zpow_pos (by norm_num) _)
  have hXle : x * (2 : ℚ) ^ (p : ℤ) ≤ 1 / 2 := by
    have h2p : (0 : ℚ) < (2 : ℚ) ^ (p : ℤ) := zpow_pos (by norm_num) _
    have := mul_le_mul_of_nonneg_right hx h2p.le
    rwa [div_mul_eq_mul_div, ← zpow_add₀ (by norm_num : (2 : ℚ) ≠ 0),
      neg_add_cancel, zpow_zero] at this
  have hrne : rne ((1 + x) * 2 ^ ((p : ℤ) - 0)) = 2 ^ p := by
    rcases lt_or_eq_of_le hXle with hlt | heq
    · apply rne_eq_of_lt_half
      · rw [hscale]; push_cast; linarith
      · rw [hscale]; push_cast; linarith
    · apply rne_eq_of_tie_even
      · rw [hscale, heq]
      · have : (2 : ℤ) ^ p = 2 * 2 ^ (p - 1) := by
          rw [← pow_succ']
          congr 1
          omega
        omega
  rw [hrne]
  push_cast
  rw [zero_sub, ← zpow_natCast (2 : ℚ) p, ← zpow_add₀ (by norm_num : (2 : ℚ) ≠ 0)]
  simp

/-- Adding one full ulp of `1.0` is preserved exactly:
`fl p (1 + 2 ^ (-p)) = 1 + 2 ^ (-p)`. -/
lemma fl_one_add_ulp {p : ℕ} (hp : 0 < p) :
    fl p (1 + (2 : ℚ) ^ (-(p : ℤ))) = 1 + (2 : ℚ) ^ (-(p : ℤ)) := by
  have hps : (1 : ℤ) ≤ (p : ℤ) := by exact_mod_cast hp
  have hple : (2 : ℚ) ^ (-(p : ℤ)) ≤ (2 : ℚ) ^ (-1 : ℤ) :=
    zpow_le_zpow_right₀ (by norm_num) (by omega)
  have hval : (2 : ℚ) ^ (-1 : ℤ) = 1 / 2 := by norm_num
  have hx0 : (0 : ℚ) < (2 : ℚ) ^ (-(p : ℤ)) := zpow_pos (by norm_num) _
  rw [hval] at hple
  have hbin : fl p (1 + (2 : ℚ) ^ (-(p : ℤ))) = roundAt p 0 (1 + (2 : ℚ) ^ (-(p : ℤ))) := by
    apply fl_eq_roundAt
    · simp only [zpow_zero]; linarith
    · simp only [zero_add, zpow_one]; linarith
  rw [hbin, roundAt]
  have hscale : (1 + (2 : ℚ) ^ (-(p : ℤ))) * 2 ^ ((p : ℤ) - 0) = ((2 ^ p + 1 : ℤ) : ℚ) := by
    push_cast
    rw [sub_zero, add_mul, one_mul, ← zpow_add₀ (by norm_num : (2 : ℚ) ≠ 0),
      neg_add_cancel, zpow_zero, zpow_natCast]
  have hrne : rne ((1 + (2 : ℚ) ^ (-(p : ℤ))) * 2 ^ ((p : ℤ) - 0)) = 2 ^ p + 1 := by
    apply rne_eq_of_lt_half
    · rw [hscale]
    · rw [hscale]; push_cast; linarith
  rw [hrne]
  push_cast
  rw [zero_sub, add_mul, one_mul, ← zpow_natCast (2 : ℚ) p,
    ← zpow_add₀ (by norm_num : (2 : ℚ) ≠ 0)]
  simp [add_comm]

/-!
## Claims about the Precision Profile Reporter (spec §4.1, §7, §8)
-/

lemma decimalDigits_52 : decimalDigits 52 = 15 :=
  Nat.log_eq_of_pow_le_of_lt_pow (by norm_num) (by norm_num)

lemma decimalDigits_63 : decimalDigits 63 = 18 :=
  Nat.log_eq_of_pow_le_of_lt_pow (by norm_num) (by norm_num)

lemma toNat_cast_real {m : ℤ} (hm : 0 < m) : ((m.toNat : ℕ) : ℝ) = (m : ℝ) := by
  exact_mod_cast congrArg (fun z : ℤ => (z : ℝ)) (Int.toNat_of_nonneg hm.le)

/-- **C1**: on any valid format constants (positive bit-widths) the reporter
returns a profile whose `machine_epsilon` is exactly `2 ^ (-mantissa_bits)`
and whose `decimal_digits` is `⌊mantissa_bits * log10 2⌋`, expressed both by
the bracketing `10 ^ d ≤ 2 ^ m < 10 ^ (d + 1)` and by the real inequalities
`d ≤ m * logb 10 2 < d + 1`; in particular 52 mantissa bits give 15 decimal
digits and 63 mantissa bits give 18. -/
theorem C1_reporter_epsilon_and_digits :
    (∀ t m e b : ℤ, 0 < t → 0 < m → 0 < e →
      ∃ p : PrecisionProfile, precisionProfile t m e b = .ok p ∧
        p.machine_epsilon = (2 : ℚ) ^ (-m) ∧
        10 ^ p.decimal_digits ≤ 2 ^ m.toNat ∧
        2 ^ m.toNat < 10 ^ (p.decimal_digits + 1) ∧
        (p.decimal_digits : ℝ) ≤ (m : ℝ) * Real.logb 10 2 ∧
        (m : ℝ) * Real.logb 10 2 < (p.decimal_digits : ℝ) + 1) ∧
    (∃ p, precisionProfile 64 52 11 1023 = .ok p ∧ p.decimal_digits = 15) ∧
    (∃ p, precisionProfile 128 63 15 16383 = .ok p ∧ p.decimal_digits = 18) := by
  refine ⟨?_, ?_, ?_⟩
  · intro t m e b ht hm he
    refine ⟨_, by rw [precisionProfile, if_neg (by omega)], rfl, ?_, ?_, ?_, ?_⟩
    · exact Nat.pow_log_le_self 10 (pow_ne_zero _ (by norm_num))
    · exact Nat.lt_pow_succ_log_self (by norm_num) _
    · have hbr : 10 ^ decimalDigits m.toNat ≤ 2 ^ m.toNat :=
        Nat.pow_log_le_self 10 (pow_ne_zero _ (by norm_num))
      have hcast : ((10: ℝ)) ^ decimalDigits m.toNat ≤ (2 : ℝ) ^ m.toNat := by
        exact_mod_cast hbr
      have hlogle := (Real.logb_le_logb (b := 10) (by norm_num)
        (by positivity) (by positivity)).mpr hcast
      rw [Real.logb_pow, Real.logb_pow, Real.logb_self_eq_one (by norm_num),
        mul_one, toNat_cast_real hm] at hlogle
      exact hlogle
    · have hbr : 2 ^ m.toNat < 10 ^ (decimalDigits m.toNat + 1) :=
        Nat.lt_pow_succ_log_self (by norm_num) _
      have hcast : (2 : ℝ) ^ m.toNat < (10 : ℝ) ^ (decimalDigits m.toNat + 1) := by
        exact_mod_cast hbr
      have hloglt := Real.logb_lt_logb (b := 10) (by norm_num) (by positivity) hcast
      rw [Real.logb_pow, Real.logb_pow, Real.logb_self_eq_one (by norm_num),
        mul_one, toNat_cast_real hm] at hloglt
      push_cast at hloglt ⊢
      linarith
  · exact ⟨_, by rw [precisionProfile, if_neg (by omega)],
      by simpa using decimalDigits_52⟩
  · exact ⟨_, by rw [precisionProfile, if_neg (by omega)],
      by simpa using decimalDigits_63⟩

/-- Witness for C1 at the notebook's float64 constants. -/
theorem C1_witness :
    ∃ p : PrecisionProfile, precisionProfile 64 52 11 1023 = .ok p ∧
      p.machine_epsilon = (2 : ℚ) ^ (-52 : ℤ) ∧
      10 ^ p.decimal_digits ≤ 2 ^ (52 : ℤ).toNat ∧
      2 ^ (52 : ℤ).toNat < 10 ^ (p.decimal_digits + 1) ∧
      (p.decimal_digits : ℝ) ≤ ((52 : ℤ) : ℝ) * Real.logb 10 2 ∧
      ((52 : ℤ) : ℝ) * Real.logb 10 2 < (p.decimal_digits : ℝ) + 1 :=
  C1_reporter_epsilon_and_digits.1 64 52 11 1023 (by norm_num) (by norm_num) (by norm_num)

/-- **C2**: the reporter's machine epsilon is ≈ 2.22e-16 for 52 mantissa bits
(IEEE double) and ≈ 1.08e-19 for 63 mantissa bits (extended precision). -/
theorem C2_epsilon_approx_values :
    (∃ p, precisionProfile 64 52 11 1023 = .ok p ∧
      (222 : ℚ) / 10 ^ 18 < p.machine_epsilon ∧ p.machine_epsilon < (22205 : ℚ) / 10 ^ 20) ∧
    (∃ p, precisionProfile 128 63 15 16383 = .ok p ∧
      (108 : ℚ) / 10 ^ 21 < p.machine_epsilon ∧ p.machine_epsilon < (10843 : ℚ) / 10 ^ 23) := by
  constructor
  · exact ⟨_, by rw [precisionProfile, if_neg (by omega)],
      by norm_num [precisionProfile], by norm_num [precisionProfile]⟩
  · exact ⟨_, by rw [precisionProfile, if_neg (by omega)],
      by norm_num [precisionProfile], by norm_num [precisionProfile]⟩

/-- **C3**: the reporter fails with `InvalidFormatError` exactly when a
requested bit-width parameter is non-physical (zero or negative); in
particular it fails for `mantissa_bits = 0` and for every negative
`mantissa_bits`, and succeeds on all positive inputs. -/
theorem C3_invalid_format_iff :
    ∀ t m e b : ℤ,
      precisionProfile t m e b = .error .invalidFormat ↔ t ≤ 0 ∨ m ≤ 0 ∨ e ≤ 0 := by
  intro t m e b
  constructor
  · intro h
    by_contra hc
    rw [precisionProfile, if_neg hc] at h
    exact Except.noConfusion h
  · intro h
    rw [precisionProfile, if_pos h]

/-- **C4**: `decimal_digits` is monotonically non-decreasing in
`mantissa_bits` (the claim itself allows equality after rounding): for valid
widths `m₁ < m₂` the profile at `m₁` has at most as many decimal digits as
the profile at `m₂`. -/
theorem C4_decimal_digits_monotone :
    ∀ t e b m₁ m₂ : ℤ, 0 < t → 0 < e → 0 < m₁ → m₁ < m₂ →
      ∃ p₁ p₂, precisionProfile t m₁ e b = .ok p₁ ∧ precisionProfile t m₂ e b = .ok p₂ ∧
        p₁.decimal_digits ≤ p₂.decimal_digits := by
  intro t e b m₁ m₂ ht he hm₁ hlt
  refine ⟨_, _, by rw [precisionProfile, if_neg (by omega)],
    by rw [precisionProfile, if_neg (by omega)], ?_⟩
  exact Nat.log_mono_right (Nat.pow_le_pow_right (by norm_num) (by omega))

/-- Witness for C4: 52 < 63 gives 15 ≤ 18. -/
theorem C4_witness :
    ∃ p₁ p₂, precisionProfile 64 52 11 1023 = .ok p₁ ∧
      precisionProfile 64 63 11 1023 = .ok p₂ ∧
      p₁.decimal_digits ≤ p₂.decimal_digits :=
  C4_decimal_digits_monotone 64 11 1023 52 63 (by norm_num) (by norm_num)
    (by norm_num) (by norm_num)

/-- **C5**: the reporter is a pure, deterministic function: identical
format-constant inputs always produce identical results (the embedding is a
function of its arguments, with no hidden state). -/
theorem C5_reporter_deterministic :
    ∀ t m e b t' m' e' b' : ℤ, t = t' → m = m' → e = e' → b = b' →
      precisionProfile t m e b = precisionProfile t' m' e' b' := by
  intro t m e b t' m' e' b' h1 h2 h3 h4
  rw [h1, h2, h3, h4]

/-- Witness for C5 at the float64 constants. -/
theorem C5_witness :
    precisionProfile 64 52 11 1023 = precisionProfile 64 52 11 1023 :=
  C5_reporter_deterministic 64 52 11 1023 64 52 11 1023 rfl rfl rfl rfl

/-!
## Claims about float64 rounding behaviour (machine epsilon, lost addends,
inexact decimals)
-/

/-- **C6, counterexample**: `x = 3 * 2 ^ (-54)` is positive and strictly below
the machine epsilon `2 ^ (-52)`, yet `1 + x` does *not* round to `1`
(round-to-nearest sends it up to `1 + 2 ^ (-52)`), so machine epsilon is not
the largest value whose addition to `1.0` is invisible. -/
theorem C6_counterexample :
    0 < (3 / 2 ^ 54 : ℚ) ∧ (3 / 2 ^ 54 : ℚ) < (2 : ℚ) ^ (-52 : ℤ) ∧
      fl 52 (1 + 3 / 2 ^ 54) ≠ 1 := by
  refine ⟨by norm_num, by norm_num, ?_⟩
  have h : fl 52 (1 + 3 / 2 ^ 54 : ℚ) = roundAt 52 0 (1 + 3 / 2 ^ 54) :=
    fl_eq_roundAt (by norm_num) (by norm_num)
  rw [h, roundAt]
  have h2 : rne ((1 + 3 / 2 ^ 54 : ℚ) * 2 ^ (((52 : ℕ) : ℤ) - 0)) = 4503599627370496 + 1 :=
    rne_eq_of_gt_half (by norm_num) (by norm_num)
  rw [h2]
  norm_num

/-- **C6 (amended)**: the rounding threshold at `1.0` is *half* the machine
epsilon: every positive `x ≤ 2 ^ (-mantissa_bits) / 2` satisfies
`fl (1 + x) = 1` (ties round to the even value `1`), while adding the machine
epsilon itself is exactly representable and distinguishable from `1`. -/
theorem C6_amended_half_ulp_threshold :
    (∀ p : ℕ, 0 < p → ∀ x : ℚ, 0 < x → x ≤ (2 : ℚ) ^ (-(p : ℤ)) / 2 →
      fl p (1 + x) = 1) ∧
    (∀ p : ℕ, 0 < p →
      fl p (1 + (2 : ℚ) ^ (-(p : ℤ))) = 1 + (2 : ℚ) ^ (-(p : ℤ)) ∧
      fl p (1 + (2 : ℚ) ^ (-(p : ℤ))) ≠ 1) := by
  constructor
  · intro p hp x hx0 hx
    exact fl_one_add_le_half_ulp hp hx0 hx
  · intro p hp
    have hpos : (0 : ℚ) < (2 : ℚ) ^ (-(p : ℤ)) := zpow_pos (by norm_num) _
    refine ⟨fl_one_add_ulp hp, ?_⟩
    rw [fl_one_add_ulp hp]
    intro hcon
    exact absurd (by linarith : (2 : ℚ) ^ (-(p : ℤ)) = 0) (ne_of_gt hpos)

/-- Witness for the amended C6 at float64: `2 ^ (-53)` is absorbed,
`2 ^ (-52)` is not. -/
theorem C6_amended_witness :
    fl 52 (1 + (2 : ℚ) ^ (-53 : ℤ)) = 1 ∧ fl 52 (1 + (2 : ℚ) ^ (-(52 : ℕ) : ℤ)) ≠ 1 :=
  ⟨by
    have := C6_amended_half_ulp_threshold.1 52 (by norm_num) ((2 : ℚ) ^ (-53 : ℤ))
      (by norm_num) (by norm_num)
    simpa using this,
   (C6_amended_half_ulp_threshold.2 52 (by norm_num)).2⟩

/-- The stored float64 value of the Python literal `1e-30`. -/
lemma fl64_eval_one_e30 : fl64 (1 / 10 ^ 30) = 5708990770823840 / 2 ^ 152 := by
  rw [fl64]
  have h : fl 52 (1 / 10 ^ 30 : ℚ) = roundAt 52 (-100) (1 / 10 ^ 30) :=
    fl_eq_roundAt (by norm_num) (by norm_num)
  rw [h, roundAt]
  have h2 : rne ((1 / 10 ^ 30 : ℚ) * 2 ^ (((52 : ℕ) : ℤ) - (-100))) = 5708990770823839 + 1 :=
    rne_eq_of_gt_half (by norm_num) (by norm_num)
  rw [h2]
  norm_num

/-- The stored float64 value of the Python literal `2e-15`. -/
lemma fl64_eval_two_e15 : fl64 (2 / 10 ^ 15) = 5070602400912918 / 2 ^ 101 := by
  rw [fl64]
  have h : fl 52 (2 / 10 ^ 15 : ℚ) = roundAt 52 (-49) (2 / 10 ^ 15) :=
    fl_eq_roundAt (by norm_num) (by norm_num)
  rw [h, roundAt]
  have h2 : rne ((2 / 10 ^ 15 : ℚ) * 2 ^ (((52 : ℕ) : ℤ) - (-49))) = 5070602400912917 + 1 :=
    rne_eq_of_gt_half (by norm_num) (by norm_num)
  rw [h2]
  norm_num

/-- **C9**: in float64, `1.0 + 1e-30` stores exactly `1.0` (the addend is
right-shifted to oblivion), while `1.0 + 2e-15` stores a value strictly
greater than `1.0`.  Both decimal literals are themselves first rounded to
float64, as Python does. -/
theorem C9_tiny_addend_lost :
    fl64 (1 + fl64 (1 / 10 ^ 30)) = 1 ∧ 1 < fl64 (1 + fl64 (2 / 10 ^ 15)) := by
  constructor
  · rw [fl64_eval_one_e30, fl64]
    exact fl_one_add_le_half_ulp (by norm_num) (by norm_num) (by norm_num)
  · rw [fl64_eval_two_e15, fl64]
    have h : fl 52 (1 + 5070602400912918 / 2 ^ 101 : ℚ) =
        roundAt 52 0 (1 + 5070602400912918 / 2 ^ 101) :=
      fl_eq_roundAt (by norm_num) (by norm_num)
    rw [h, roundAt]
    have h2 : rne ((1 + 5070602400912918 / 2 ^ 101 : ℚ) * 2 ^ (((52 : ℕ) : ℤ) - 0)) =
        4503599627370505 :=
      rne_eq_of_lt_half (by norm_num) (by norm_num)
    rw [h2]
    norm_num

/-- The stored float64 value of the Python literal `0.3`. -/
lemma fl64_eval_03 : fl64 (3 / 10) = 5404319552844595 / 2 ^ 54 := by
  rw [fl64]
  have h : fl 52 (3 / 10 : ℚ) = roundAt 52 (-2) (3 / 10) :=
    fl_eq_roundAt (by norm_num) (by norm_num)
  rw [h, roundAt]
  have h2 : rne ((3 / 10 : ℚ) * 2 ^ (((52 : ℕ) : ℤ) - (-2))) = 5404319552844595 :=
    rne_eq_of_lt_half (by norm_num) (by norm_num)
  rw [h2]
  norm_num

/-- The stored float64 value of the 31-digit literal
`0.2999999999999999888977697537484` printed by the notebook. -/
lemma fl64_eval_long_literal :
    fl64 (2999999999999999888977697537484 / 10 ^ 31) = 5404319552844595 / 2 ^ 54 := by
  rw [fl64]
  have h : fl 52 (2999999999999999888977697537484 / 10 ^ 31 : ℚ) =
      roundAt 52 (-2) (2999999999999999888977697537484 / 10 ^ 31) :=
    fl_eq_roundAt (by norm_num) (by norm_num)
  rw [h, roundAt]
  have h2 : rne ((2999999999999999888977697537484 / 10 ^ 31 : ℚ) * 2 ^ (((52 : ℕ) : ℤ) - (-2))) =
      5404319552844594 + 1 :=
    rne_eq_of_gt_half (by norm_num) (by norm_num)
  rw [h2]
  norm_num

/-- **C10**: the decimal `0.3` is not exactly representable in float64; the
stored value is the nearest double `5404319552844595 / 2 ^ 54`, which printed
to 31 decimal places is `0.2999999999999999888977697537484`, and parsing that
31-digit literal stores the same float64 value as parsing `0.3`. -/
theorem C10_point_three_round_trip :
    fl64 (3 / 10) ≠ 3 / 10 ∧
    fl64 (3 / 10) = 5404319552844595 / 2 ^ 54 ∧
    |fl64 (3 / 10) - 2999999999999999888977697537484 / 10 ^ 31| < 1 / (2 * 10 ^ 31) ∧
    fl64 (2999999999999999888977697537484 / 10 ^ 31) = fl64 (3 / 10) := by
  refine ⟨?_, fl64_eval_03, ?_, by rw [fl64_eval_03, fl64_eval_long_literal]⟩
  · rw [fl64_eval_03]
    norm_num
  · rw [fl64_eval_03, abs_lt]
    constructor <;> norm_num

/-!
## Bit-layout claim (notebook appendix and `np.finfo` tables)
-/

/-- **C8**: the 64-bit double splits exactly as 1 sign + 11 exponent
(bias 1023) + 52 mantissa bits; the extended-precision profile reports
128 total bits although only 1 + 15 + 64 = 80 bits carry values (the
64-bit significand is the 63 fractional bits plus the explicit integer bit),
so `total_bits` need not equal `1 + exponent_bits + mantissa_bits`. -/
theorem C8_bit_layout :
    float64Info.total_bits = 64 ∧
    float64Info.total_bits = 1 + float64Info.exponent_bits + float64Info.mantissa_bits ∧
    float64Info.exponent_bits = 11 ∧
    float64Info.exponent_bias = 1023 ∧
    float64Info.mantissa_bits = 52 ∧
    longdoubleInfo.total_bits = 128 ∧
    longdoubleInfo.exponent_bits = 15 ∧
    1 + longdoubleInfo.exponent_bits + (longdoubleInfo.mantissa_bits + 1) = 80 ∧
    longdoubleInfo.total_bits ≠ 1 + longdoubleInfo.exponent_bits + longdoubleInfo.mantissa_bits := by
  refine ⟨rfl, rfl, rfl, rfl, rfl, rfl, rfl, rfl, ?_⟩
  decide

/-!
## The arbitrary-precision evaluator (spec §4.2) and its recorded outputs
-/

lemma I_pow_emod (m : ℕ) : Complex.I ^ m = Complex.I ^ (m % 4) := by
  conv_lhs => rw [← Nat.div_add_mod m 4]
  rw [pow_add, pow_mul, Complex.I_pow_four, one_pow, one_mul]

/-- The imaginary part of one term of the exponential series of `exp (x*I)`
is the corresponding sine-series term. -/
lemma im_term (x : ℚ) (m : ℕ) :
    ((((x : ℝ) : ℂ) * Complex.I) ^ m / (m.factorial : ℂ)).im
      = ((sinSeriesTerm x m : ℚ) : ℝ) := by
  rw [mul_pow, I_pow_emod, Complex.div_natCast_im, ← Complex.ofReal_pow]
  have h4 : m % 4 = 0 ∨ m % 4 = 1 ∨ m % 4 = 2 ∨ m % 4 = 3 := by omega
  have h3 : Complex.I ^ 3 = -Complex.I := by
    rw [pow_succ, Complex.I_sq, neg_one_mul]
  rcases h4 with h | h | h | h
  · simp [sinSeriesTerm, h]
    exact Or.inl (by rw [show ((x : ℂ)) ^ m = ((x ^ m : ℚ) : ℂ) by norm_cast]; exact Complex.ratCast_im _)
  · simp only [sinSeriesTerm, h, pow_one, Complex.mul_I_im, Complex.ofReal_re]
    push_cast
    norm_num
  · simp [sinSeriesTerm, h, Complex.I_sq]
    exact Or.inl (by rw [show ((x : ℂ)) ^ m = ((x ^ m : ℚ) : ℂ) by norm_cast]; exact Complex.ratCast_im _)
  · simp only [sinSeriesTerm, h, h3, mul_neg, Complex.neg_im, Complex.mul_I_im,
      Complex.ofReal_re]
    push_cast
    ring

/-- The imaginary part of the partial exponential sum of `exp (x*I)` is the
partial sine series. -/
lemma im_exp_partial_sum (x : ℚ) (n : ℕ) :
    (∑ m ∈ Finset.range n, (((x : ℝ) : ℂ) * Complex.I) ^ m / (m.factorial : ℂ)).im
      = ((∑ m ∈ Finset.range n, sinSeriesTerm x m : ℚ) : ℝ) := by
  rw [Complex.im_sum]
  push_cast
  exact Finset.sum_congr rfl fun m _ => im_term x m

/-- The stored float64 value of the Python literal `4.1`. -/
lemma fl64_eval_41 : fl64 (41 / 10) = 4616189618054758 / 2 ^ 50 := by
  rw [fl64]
  have h : fl 52 (41 / 10 : ℚ) = roundAt 52 2 (41 / 10) :=
    fl_eq_roundAt (by norm_num) (by norm_num)
  rw [h, roundAt]
  have h2 : rne ((41 / 10 : ℚ) * 2 ^ (((52 : ℕ) : ℤ) - 2)) = 4616189618054758 :=
    rne_eq_of_lt_half (by norm_num) (by norm_num)
  rw [h2]
  norm_num

/-- The stored float64 value of the Python literal `0.1`. -/
lemma fl64_eval_01 : fl64 (1 / 10) = 7205759403792794 / 2 ^ 56 := by
  rw [fl64]
  have h : fl 52 (1 / 10 : ℚ) = roundAt 52 (-4) (1 / 10) :=
    fl_eq_roundAt (by norm_num) (by norm_num)
  rw [h, roundAt]
  have h2 : rne ((1 / 10 : ℚ) * 2 ^ (((52 : ℕ) : ℤ) - (-4))) = 7205759403792793 + 1 :=
    rne_eq_of_gt_half (by norm_num) (by norm_num)
  rw [h2]
  norm_num

/-- **C7, counterexample**: the recorded 40-digit output for `sqrt(4.1)` does
*not* agree with the exact real `√(41/10)` to 40 digits: they differ already
by more than `10 ^ (-17)`, because `mp.mpf(4.1)` is the float64-rounded value
of 4.1, not the exact decimal 4.1. -/
theorem C7_counterexample :
    ¬ |Real.sqrt (41 / 10) - (sqrtResult40 : ℝ)| ≤ 1 / 10 ^ 39 := by
  have h0 : (0 : ℝ) ≤ (sqrtResult40 : ℝ) + 1 / 10 ^ 17 := by
    simp only [sqrtResult40]
    push_cast
    norm_num
  have hlt : ((sqrtResult40 : ℝ) + 1 / 10 ^ 17) ^ 2 < 41 / 10 := by
    simp only [sqrtResult40]
    push_cast
    norm_num
  have hs : (sqrtResult40 : ℝ) + 1 / 10 ^ 17 < Real.sqrt (41 / 10) :=
    (Real.lt_sqrt h0).mpr hlt
  intro hcon
  rw [abs_le] at hcon
  have h2 := hcon.2
  linarith

/-- **C7 (amended)**: at `dps = 40` the evaluator's recorded outputs are the
true real values, to well beyond 40 significant digits, of the *stored*
(float64-rounded) arguments: `√(fl64 4.1)` matches the recorded value to
`10 ^ (-41)` and `sin (fl64 0.1)` matches it to `10 ^ (-42)`. -/
theorem C7_amended_correct_on_stored_inputs :
    |Real.sqrt ((fl64 (41 / 10) : ℚ) : ℝ) - (sqrtResult40 : ℝ)| < 1 / 10 ^ 41 ∧
    |Real.sin ((fl64 (1 / 10) : ℚ) : ℝ) - (sinResult40 : ℝ)| < 1 / 10 ^ 42 := by
  constructor
  · rw [fl64_eval_41]
    have ha : ((4616189618054758 / 2 ^ 50 : ℚ) : ℝ) = (4616189618054758 : ℝ) / 2 ^ 50 := by
      push_cast
      norm_num
    rw [ha]
    have h0 : (0 : ℝ) ≤ (sqrtResult40 : ℝ) - 1 / 10 ^ 41 := by
      simp only [sqrtResult40]
      push_cast
      norm_num
    have hpos : (0 : ℝ) < (sqrtResult40 : ℝ) + 1 / 10 ^ 41 := by
      simp only [sqrtResult40]
      push_cast
      norm_num
    have hlo : ((sqrtResult40 : ℝ) - 1 / 10 ^ 41) ^ 2 < (4616189618054758 : ℝ) / 2 ^ 50 := by
      simp only [sqrtResult40]
      push_cast
      norm_num
    have hhi : (4616189618054758 : ℝ) / 2 ^ 50 < ((sqrtResult40 : ℝ) + 1 / 10 ^ 41) ^ 2 := by
      simp only [sqrtResult40]
      push_cast
      norm_num
    have h1 : (sqrtResult40 : ℝ) - 1 / 10 ^ 41 <
        Real.sqrt ((4616189618054758 : ℝ) / 2 ^ 50) := (Real.lt_sqrt h0).mpr hlo
    have h2 : Real.sqrt ((4616189618054758 : ℝ) / 2 ^ 50) <
        (sqrtResult40 : ℝ) + 1 / 10 ^ 41 := (Real.sqrt_lt' hpos).mpr hhi
    rw [abs_lt]
    constructor <;> linarith
  · rw [fl64_eval_01]
    set b : ℚ := 7205759403792794 / 2 ^ 56 with hb
    have hbpos : (0 : ℚ) < b := by rw [hb]; norm_num
    have hsin : Real.sin ((b : ℚ) : ℝ) = (Complex.exp (((b : ℝ) : ℂ) * Complex.I)).im := by
      rw [Complex.exp_mul_I, Complex.add_im, Complex.cos_ofReal_im, Complex.mul_I_im,
        Complex.sin_ofReal_re, zero_add]
    have hpartial := im_exp_partial_sum b 24
    have habs_arg : Complex.abs (((b : ℝ) : ℂ) * Complex.I) = (b : ℝ) := by
      rw [map_mul, Complex.abs_ofReal, Complex.abs_I, mul_one, abs_of_pos]
      exact_mod_cast hbpos
    have hb1 : Complex.abs (((b : ℝ) : ℂ) * Complex.I) ≤ 1 := by
      rw [habs_arg]
      rw [hb]
      push_cast
      norm_num
    have hexp := Complex.exp_bound hb1 (n := 24) (by norm_num)
    have h5 : |Real.sin ((b : ℚ) : ℝ) - ((∑ m ∈ Finset.range 24, sinSeriesTerm b m : ℚ) : ℝ)|
        ≤ Complex.abs (Complex.exp (((b : ℝ) : ℂ) * Complex.I)
            - ∑ m ∈ Finset.range 24, (((b : ℝ) : ℂ) * Complex.I) ^ m / (m.factorial : ℂ)) := by
      rw [hsin, ← hpartial, ← Complex.sub_im]
      exact Complex.abs_im_le_abs _
    have h6 : |Real.sin ((b : ℚ) : ℝ) - ((∑ m ∈ Finset.range 24, sinSeriesTerm b m : ℚ) : ℝ)|
        ≤ 1 / 10 ^ 45 := by
      refine (h5.trans hexp).trans ?_
      rw [habs_arg, hb]
      push_cast
      norm_num [Nat.factorial]
    have hq : |(∑ m ∈ Finset.range 24, sinSeriesTerm b m : ℚ) - sinResult40| ≤ 5 / 10 ^ 43 := by
      rw [abs_le]
      constructor
      · simp only [Finset.sum_range_succ, Finset.sum_range_zero, sinSeriesTerm, sinResult40, hb]
        norm_num [Nat.factorial]
      · simp only [Finset.sum_range_succ, Finset.sum_range_zero, sinSeriesTerm, sinResult40, hb]
        norm_num [Nat.factorial]
    have hq' : |((∑ m ∈ Finset.range 24, sinSeriesTerm b m : ℚ) : ℝ) - (sinResult40 : ℝ)|
        ≤ 5 / 10 ^ 43 := by
      have hq2 : ((|(∑ m ∈ Finset.range 24, sinSeriesTerm b m : ℚ) - sinResult40| : ℚ) : ℝ)
          ≤ ((5 / 10 ^ 43 : ℚ) : ℝ) := by
        exact_mod_cast hq
      rw [Rat.cast_abs, Rat.cast_sub] at hq2
      exact hq2.trans (by norm_num)
    calc |Real.sin ((b : ℚ) : ℝ) - (sinResult40 : ℝ)|
        ≤ |Real.sin ((b : ℚ) : ℝ) - ((∑ m ∈ Finset.range 24, sinSeriesTerm b m : ℚ) : ℝ)|
          + |((∑ m ∈ Finset.range 24, sinSeriesTerm b m : ℚ) : ℝ) - (sinResult40 : ℝ)| :=
          abs_sub_le _ _ _
      _ < 1 / 10 ^ 42 := by linarith

end HighPrecision
